import Mathlib

/-!
Verification development for the `file-analytics` repository, focused on the
bounded concurrent task-processing core:

* `internal/concurrency/stateful.go` — the `StatefulPool` worker pool
  (constructor, `Submit`, `Stop`, `runWorker`, `GetWorkerStats`);
* `internal/processor/worker.go` — the `WorkerPool` request handler
  (per-request error capture, non-blocking response delivery);
* the `monitor package` metrics collector
  (`IncrementProcessed`, `IncrementErrors`, `AddDuration`, `GetMetrics`).

Modelling conventions.  Go channels are embedded as bounded FIFO queues
(`List` contents plus a capacity); a send is enabled when the buffer has
free space, a receive when the buffer is non-empty, and a receive on a
closed empty channel yields the element type's zero value, as in Go.  The
scheduler's freedom (which `select` branch fires, which goroutine runs) is
made explicit as a labelled transition function `stepFn : Label → PoolState
→ Option PoolState`; an execution of the program is any chain of enabled
labels.  Machine counters (`int64 WorkCount`, the `uint64` metric counters)
are modelled as `Nat`/`Int`: they are only ever incremented once per
processed task, so 64-bit wrap-around is unreachable at any scale relevant
to the claims.  Wall-clock time is abstracted to a ghost step counter
(`clock`); `time.Sleep` has no observable effect besides scheduling, which
the label nondeterminism already covers.
-/

namespace FileAnalytics

/-! ### Metrics collector (package `monitor`)

Embeds the `MetricsCollector` atomic counters and their four operations.
The periodic reporting goroutine (`Start`/`Stop`/`reportMetrics`) only reads
the counters and is not modelled.  -/

/-- The three counter fields of `MetricsCollector`: `processed` and `errors`
are `atomic.Uint64`, `duration` is `atomic.Int64` (nanosecond count, may be
negative as `time.Duration` is signed). -/
structure MetricsCollector where
  processed : Nat
  errors : Nat
  duration : Int
deriving DecidableEq

/-- Zero value of the collector, as produced by `NewMetricsCollector`
(the counters start at their zero values). -/
def newMetricsCollector : MetricsCollector := { processed := 0, errors := 0, duration := 0 }

/-- `IncrementProcessed`: `m.processed.Add(1)`. -/
def IncrementProcessed (m : MetricsCollector) : MetricsCollector :=
  { m with processed := m.processed + 1 }

/-- `IncrementErrors`: `m.errors.Add(1)`. -/
def IncrementErrors (m : MetricsCollector) : MetricsCollector :=
  { m with errors := m.errors + 1 }

/-- `AddDuration`: `m.duration.Add(int64(d))`. -/
def AddDuration (m : MetricsCollector) (d : Int) : MetricsCollector :=
  { m with duration := m.duration + d }

/-- `GetMetrics`: loads the two counters and computes the average duration on
read as `time.Duration(totalDuration) / time.Duration(processed)` when
`processed > 0`, leaving the zero value `0` otherwise.  Go's integer
division truncates toward zero, which is `Int.tdiv`. -/
def GetMetrics (m : MetricsCollector) : Nat × Nat × Int :=
  (m.processed, m.errors,
    if m.processed > 0 then m.duration.tdiv (m.processed : Int) else 0)

/-- One call made by some worker against the collector. -/
inductive MetricOp
  | incProcessed
  | incErrors
  | addDuration (d : Int)
deriving DecidableEq

/-- Apply one collector call. -/
def applyOp (m : MetricsCollector) : MetricOp → MetricsCollector
  | .incProcessed => IncrementProcessed m
  | .incErrors => IncrementErrors m
  | .addDuration d => AddDuration m d

/-- Number of `IncrementProcessed` calls in a call history. -/
def countProcessed (ops : List MetricOp) : Nat :=
  (ops.filter fun o => match o with | .incProcessed => true | _ => false).length

/-- Number of `IncrementErrors` calls in a call history. -/
def countErrors (ops : List MetricOp) : Nat :=
  (ops.filter fun o => match o with | .incErrors => true | _ => false).length

/-- Total duration added over a call history. -/
def sumDuration (ops : List MetricOp) : Int :=
  (ops.map fun o => match o with | .addDuration d => d | _ => 0).sum

/-! ### Processor worker (`internal/processor/worker.go`)

Embeds the body of one iteration of `WorkerPool.worker` — the handling of a
single `WorkRequest` once `processor.Process(ctx, req.FilePath)` has run.  -/

/-- Possible behaviour of the call `p.processor.Process(ctx, req.FilePath)`:
a normal return `(result, err)`, or a runtime panic raised during
execution. -/
inductive ProcessOutcome
  | ret (result : Nat) (err : Option String)
  | panicked (msg : String)
deriving DecidableEq

/-- The channel state a worker iteration touches: the shared buffered
`errors` channel, and the per-request `ResponseChan` (capacity 1, possibly
already abandoned/full: `respFree` says whether a send can buffer). -/
structure HandlerCtx where
  errorsChan : List String
  errorsCap : Nat
  respFree : Bool
  respDelivered : Option Nat
  respClosed : Bool
deriving DecidableEq

/-- Fate of the worker goroutine after handling one request. -/
inductive WorkerContinuation
  | continues (s : HandlerCtx)
  | crashed (msg : String)
deriving DecidableEq

/-- Did the worker goroutine survive the request? -/
def survives : WorkerContinuation → Bool
  | .continues _ => true
  | .crashed _ => false

/-- One iteration of the `for req := range p.requests` loop body after the
`Process` call, from `worker.go`:
if `err != nil`, a non-blocking send of the error to `p.errors`
(`default:` drops it when full); then a non-blocking send of `result` on
`req.ResponseChan` (`default:` drops it when no buffer space is left); then
`close(req.ResponseChan)`.  There is no `recover()` anywhere in
`worker.go`, so a panic raised inside `Process` propagates and kills the
worker goroutine. -/
def handleRequest (s : HandlerCtx) (out : ProcessOutcome) : WorkerContinuation :=
  match out with
  | .panicked msg => .crashed msg
  | .ret result err =>
    let s1 := match err with
      | some e =>
        if s.errorsChan.length < s.errorsCap then { s with errorsChan := s.errorsChan ++ [e] }
        else s
      | none => s
    let s2 := if s1.respFree then { s1 with respDelivered := some result, respFree := false }
      else s1
    .continues { s2 with respClosed := true }

/-! ### Stateful pool (`internal/concurrency/stateful.go`)

The pool is embedded as an explicit state machine.  `PoolState` is the heap
state reachable after `NewStatefulPool` + `Start` (all workers running at
the top of their loop); `Label`/`stepFn` enumerate the atomic transitions
of the worker goroutines, of the `Stop` caller, and of the results
consumer.  -/

/-- A value on the `tasks`/`results` channels (`interface{}`); `none` is
Go's `nil`, the zero value received from a closed, drained channel. -/
abbrev Val := Option Nat

/-- Program counter of one worker goroutine inside `runWorker`:
`idle` — at the outer `select` (line 93);
`holding` — holding a rate-limiter token, at the inner `select` (line 98);
`sending r` — state updated, task processed, at `p.results <- result`
(line 108) with result `r` not yet delivered;
`returning` — result delivered, at `p.rateLimiter <- struct{}{}` (line 111);
`exited` — returned from `runWorker` (`wg.Done` ran). -/
inductive WPhase
  | idle
  | holding
  | sending (r : Val)
  | returning
  | exited
deriving DecidableEq

/-- One `StatefulWorker`: `LastWork` (abstracted to the ghost clock value at
the update) and `WorkCount`, plus the goroutine's program counter.  The
`ID` field is the worker's index in the pool slice. -/
structure WState where
  phase : WPhase
  workCount : Nat
  lastWork : Nat
deriving DecidableEq

/-- Progress of the (unique) `Stop()` call:
`running` — `Stop` not yet called;
`cancelFired` — `p.cancel()` executed;
`queueClosed` — `close(p.tasks)` executed, blocked in `p.wg.Wait()`;
`waited` — `wg.Wait` returned;
`stopped` — `close(p.results)` executed, `Stop` returned. -/
inductive StopPhase
  | running
  | cancelFired
  | queueClosed
  | waited
  | stopped
deriving DecidableEq

/-- The pool state.  `tasks`/`results` are the buffered channel contents
with their capacities; `permits` is the number of tokens currently buffered
in the `rateLimiter` channel (capacity `permitCap`); `consumed` records the
values the consumer has received from `Results()`.  The remaining `Nat`
fields are ghost instrumentation (they record event counts and never
influence enabledness). -/
structure PoolState where
  queueCap : Nat
  tasks : List Val
  resultsCap : Nat
  results : List Val
  resultsClosed : Bool
  consumed : List Val
  permitCap : Nat
  permits : Nat
  workers : List WState
  stopPhase : StopPhase
  clock : Nat
  submittedCount : Nat
  dequeuedCount : Nat
  nilRecvCount : Nat
  leakedPermits : Nat
deriving DecidableEq

/-- `ctx.Done()` is closed exactly once `p.cancel()` has run, i.e. from
`StopPhase.cancelFired` on. -/
abbrev ctxCanceled (c : PoolState) : Prop := c.stopPhase ≠ .running

/-- The `tasks` channel is closed exactly once `close(p.tasks)` has run. -/
abbrev tasksChanClosed (c : PoolState) : Prop :=
  c.stopPhase = .queueClosed ∨ c.stopPhase = .waited ∨ c.stopPhase = .stopped

/-- `NewStatefulPool(workers, queueSize, rateLimit)` followed by `Start()`:
`tasks` and `results` are buffered with `queueSize`; the `rateLimiter`
channel is buffered with `workers` and filled with one token per worker;
each worker starts with `WorkCount = 0` and `LastWork = time.Now()`
(normalized to clock 0).  The `rateLimit` duration parameter appears in the
constructor's signature but is not referenced in its body. -/
def NewStatefulPool (workers : Nat) (queueSize : Nat) (rateLimit : Int) : PoolState :=
  { queueCap := queueSize
    tasks := []
    resultsCap := queueSize
    results := []
    resultsClosed := false
    consumed := []
    permitCap := workers
    permits := workers
    workers := List.replicate workers { phase := .idle, workCount := 0, lastWork := 0 }
    stopPhase := .running
    clock := 0
    submittedCount := 0
    dequeuedCount := 0
    nilRecvCount := 0
    leakedPermits := 0 }

/-- `processTask`: sleeps 100ms (time is abstracted) and returns the task
unchanged. -/
def processTask (worker : WState) (task : Val) : Val := task

/-- One atomic transition chosen by the scheduler.  Worker labels carry the
index `w` of the acting goroutine. -/
inductive Label
  | submitOk (t : Val)    -- a `Submit(t)` whose `select` fires the send case
  | exitOuter (w : Nat)   -- outer `select`: `<-p.ctx.Done()` branch (line 94)
  | acquire (w : Nat)     -- outer `select`: `<-p.rateLimiter` branch (line 96)
  | dequeue (w : Nat)     -- inner `select`: `task := <-p.tasks` receives a buffered task
  | recvClosed (w : Nat)  -- inner `select`: `task := <-p.tasks` yields nil from a closed, drained channel
  | exitInner (w : Nat)   -- inner `select`: `<-p.ctx.Done()` branch (line 112); token not returned
  | publish (w : Nat)     -- `p.results <- result` completes (line 108)
  | release (w : Nat)     -- `p.rateLimiter <- struct{}{}` completes (line 111)
  | consume               -- the consumer receives one value from `Results()`
  | stopCancel            -- `Stop`: `p.cancel()` (line 77)
  | stopCloseTasks        -- `Stop`: `close(p.tasks)` (line 78)
  | stopWait              -- `Stop`: `p.wg.Wait()` returns (line 79)
  | stopCloseResults      -- `Stop`: `close(p.results)` (line 80)
deriving DecidableEq

/-- The worker index a label belongs to, if any. -/
def workerOf : Label → Option Nat
  | .exitOuter w | .acquire w | .dequeue w | .recvClosed w
  | .exitInner w | .publish w | .release w => some w
  | _ => none

/-- The transition function: `stepFn l c = some c'` when the transition `l`
is enabled in `c` and leads to `c'`; `none` when `l` is blocked or
impossible in `c`.  Each branch is read off the corresponding lines of
`stateful.go` (see `Label`).  The ghost `clock` advances with every
transition. -/
def stepFn (l : Label) (c : PoolState) : Option PoolState :=
  match l with
  | .submitOk t =>
    -- Submit line 68: `case p.tasks <- task` — enabled while the channel is
    -- open and has buffer space (a send on the closed channel is a fault,
    -- not a transition; see `Submit` below).
    if ¬ tasksChanClosed c ∧ c.tasks.length < c.queueCap then
      some { c with tasks := c.tasks ++ [t], submittedCount := c.submittedCount + 1,
                    clock := c.clock + 1 }
    else none
  | .exitOuter w =>
    match c.workers[w]? with
    | none => none
    | some ws =>
      if ws.phase = .idle ∧ ctxCanceled c then
        some { c with workers := c.workers.set w { ws with phase := .exited },
                      clock := c.clock + 1 }
      else none
  | .acquire w =>
    match c.workers[w]? with
    | none => none
    | some ws =>
      if ws.phase = .idle ∧ 0 < c.permits then
        some { c with permits := c.permits - 1,
                      workers := c.workers.set w { ws with phase := .holding },
                      clock := c.clock + 1 }
      else none
  | .dequeue w =>
    match c.workers[w]? with
    | none => none
    | some ws =>
      match c.tasks with
      | [] => none
      | t :: rest =>
        if ws.phase = .holding then
          -- lines 101-107: LastWork/WorkCount update under the worker's own
          -- lock, then `processTask`; the result is now pending delivery.
          some { c with tasks := rest,
                        workers := c.workers.set w
                          { phase := .sending (processTask ws t),
                            workCount := ws.workCount + 1, lastWork := c.clock + 1 },
                        dequeuedCount := c.dequeuedCount + 1, clock := c.clock + 1 }
        else none
  | .recvClosed w =>
    match c.workers[w]? with
    | none => none
    | some ws =>
      if ws.phase = .holding ∧ c.tasks = [] ∧ tasksChanClosed c then
        -- the receive on the closed, drained channel yields `nil`, which the
        -- same code path treats as a task.
        some { c with workers := c.workers.set w
                        { phase := .sending (processTask ws none),
                          workCount := ws.workCount + 1, lastWork := c.clock + 1 },
                      nilRecvCount := c.nilRecvCount + 1, clock := c.clock + 1 }
      else none
  | .exitInner w =>
    match c.workers[w]? with
    | none => none
    | some ws =>
      if ws.phase = .holding ∧ ctxCanceled c then
        some { c with workers := c.workers.set w { ws with phase := .exited },
                      leakedPermits := c.leakedPermits + 1, clock := c.clock + 1 }
      else none
  | .publish w =>
    match c.workers[w]? with
    | none => none
    | some ws =>
      match ws.phase with
      | .sending r =>
        if c.resultsClosed = false ∧ c.results.length < c.resultsCap then
          some { c with results := c.results ++ [r],
                        workers := c.workers.set w { ws with phase := .returning },
                        clock := c.clock + 1 }
        else none
      | _ => none
  | .release w =>
    match c.workers[w]? with
    | none => none
    | some ws =>
      if ws.phase = .returning ∧ c.permits < c.permitCap then
        some { c with permits := c.permits + 1,
                      workers := c.workers.set w { ws with phase := .idle },
                      clock := c.clock + 1 }
      else none
  | .consume =>
    match c.results with
    | [] => none
    | r :: rest =>
      some { c with results := rest, consumed := c.consumed ++ [r], clock := c.clock + 1 }
  | .stopCancel =>
    if c.stopPhase = .running then
      some { c with stopPhase := .cancelFired, clock := c.clock + 1 }
    else none
  | .stopCloseTasks =>
    if c.stopPhase = .cancelFired then
      some { c with stopPhase := .queueClosed, clock := c.clock + 1 }
    else none
  | .stopWait =>
    if c.stopPhase = .queueClosed ∧ ∀ ws ∈ c.workers, ws.phase = .exited then
      some { c with stopPhase := .waited, clock := c.clock + 1 }
    else none
  | .stopCloseResults =>
    if c.stopPhase = .waited then
      some { c with stopPhase := .stopped, resultsClosed := true, clock := c.clock + 1 }
    else none

/-- A pool state `b` is reachable from `a` by some chain of enabled
transitions. -/
def Reachable (a b : PoolState) : Prop :=
  Relation.ReflTransGen (fun x y => ∃ l, stepFn l x = some y) a b

/-- Run a list of labels from `c`, ignoring disabled ones (only ever used
under `validRun`). -/
def runL (c : PoolState) (ls : List Label) : PoolState :=
  ls.foldl (fun s l => (stepFn l s).getD s) c

/-- Does every label in the list denote an enabled transition when fired in
sequence from `c`? -/
def validRun (c : PoolState) : List Label → Bool
  | [] => true
  | l :: ls =>
    match stepFn l c with
    | some c' => validRun c' ls
    | none => false

/-- What a call `Submit(task)` returns (or does) in pool state `c`.
`Submit` is a two-case `select` (lines 67-72): a send on `p.tasks` and a
receive on `p.ctx.Done()`.  Per the Go memory model a send on a *closed*
channel "can proceed" — by panicking — so that case counts as ready; when
both cases are ready the runtime picks one pseudo-randomly, modelled by the
`pickSend` choice.  Outcomes: `accepted` (task enqueued, returns `nil`),
`rejected` (returns `p.ctx.Err()`, the pool-closed error), `faulted`
(runtime panic: send on closed channel), `blocked` (neither case ready yet;
the call waits). -/
inductive SubmitOutcome
  | accepted
  | rejected
  | faulted
  | blocked
deriving DecidableEq

/-- The outcome of `Submit(task)` in state `c` under scheduler choice
`pickSend` (which branch wins when both are ready). -/
def Submit (c : PoolState) (task : Val) (pickSend : Bool) : SubmitOutcome :=
  let sendReady : Prop := tasksChanClosed c ∨ c.tasks.length < c.queueCap
  let doneReady : Prop := ctxCanceled c
  if sendReady ∧ doneReady then
    if pickSend then (if tasksChanClosed c then .faulted else .accepted) else .rejected
  else if sendReady then (if tasksChanClosed c then .faulted else .accepted)
  else if doneReady then .rejected
  else .blocked

/-- One entry returned by `GetWorkerStats` (struct `WorkerStats`). -/
structure WorkerStats where
  id : Nat
  lastWork : Nat
  workCount : Nat
deriving DecidableEq

/-- `GetWorkerStats`: one snapshot per worker, taken under each worker's
read lock; `ID` is the worker's index `i` assigned at construction. -/
def GetWorkerStats (c : PoolState) : List WorkerStats :=
  c.workers.enum.map fun p => { id := p.1, lastWork := p.2.lastWork, workCount := p.2.workCount }

/-- Every value ever delivered on the `results` channel: what the consumer
has read plus what is still buffered. -/
def producedCount (c : PoolState) : Nat := c.consumed.length + c.results.length

/-- Sum of a worker-state measure over the pool's workers. -/
def wsum (f : WState → Nat) (l : List WState) : Nat := (l.map f).sum

/-- Total `WorkCount` over all workers. -/
def sumWork (c : PoolState) : Nat := wsum (fun ws => ws.workCount) c.workers

/-- Indicator: the worker is between its state update and its result
delivery (a task is being processed / its result is pending). -/
def sendInd (ws : WState) : Nat :=
  match ws.phase with
  | .sending _ => 1
  | _ => 0

/-- Number of workers currently processing (phase `sending`). -/
def countSending (c : PoolState) : Nat := wsum sendInd c.workers

/-- Indicator: the worker holds a rate-limiter token (acquired, not yet
returned). -/
def holdInd (ws : WState) : Nat :=
  match ws.phase with
  | .holding => 1
  | .sending _ => 1
  | .returning => 1
  | _ => 0

/-- Number of rate-limiter tokens held by workers. -/
def heldPermits (c : PoolState) : Nat := wsum holdInd c.workers

/-- Permits in circulation: buffered in the `rateLimiter` channel or held
by an in-flight worker. -/
def circulation (c : PoolState) : Nat := c.permits + heldPermits c

/-- "No task is currently being processed": no worker sits between its
state update and its result delivery. -/
abbrev Quiescent (c : PoolState) : Prop := ∀ ws ∈ c.workers, sendInd ws = 0

/-- The inductive invariant of the pool, relative to the constructor
arguments `W` (worker count) and `qs` (queue size):
channel capacities and the worker-slice length are fixed at construction;
every successful submission is either still queued or was dequeued exactly
once; every state-update (`WorkCount` increment) stems from exactly one
dequeue or one nil-receive and leads to exactly one pending or delivered
result; and every rate-limiter token is accounted for as buffered, held by
an in-flight worker, or leaked by a worker that exited under cancellation
while holding it. -/
structure PoolInv (W qs : Nat) (c : PoolState) : Prop where
  capP : c.permitCap = W
  capQ : c.queueCap = qs
  capR : c.resultsCap = qs
  lenW : c.workers.length = W
  subEq : c.submittedCount = c.dequeuedCount + c.tasks.length
  workEq : sumWork c = producedCount c + countSending c
  deqEq : sumWork c = c.dequeuedCount + c.nilRecvCount
  permEq : circulation c + c.leakedPermits = W

/-! ### Concrete executions

All traces start from a pool of 1 worker with queue size 1
(`NewStatefulPool(1, 1, rateLimit)`), the smallest configuration on which
the scheduling races of interest are expressible. -/

/-- `NewStatefulPool(1, 1, 0)` after `Start()`. -/
def initA : PoolState := NewStatefulPool 1 1 0

/-- Run: one task is submitted successfully, then `Stop()` runs to
completion while the worker's outer `select` fires the `ctx.Done()` branch
before the worker ever dequeues.  The accepted task is left in the closed
`tasks` channel forever. -/
def lsDrop : List Label :=
  [.submitOk (some 42), .stopCancel, .stopCloseTasks, .exitOuter 0, .stopWait, .stopCloseResults]

/-- The stopped pool at the end of `lsDrop`. -/
def sStopped : PoolState := runL initA lsDrop

/-- Run: the worker takes the rate-limiter token, then `Stop`'s
cancellation fires and the inner `select` takes the `ctx.Done()` branch —
the worker exits still holding the token. -/
def lsLeak : List Label := [.acquire 0, .stopCancel, .exitInner 0]

/-- The pool after `lsLeak`: no permit is buffered and none is held. -/
def sLeak : PoolState := runL initA lsLeak

/-- Run: one task is submitted, fully processed, and its result published;
the worker returns to `idle`.  A quiescent state with one result produced
and `WorkCount` 1. -/
def lsQuiet : List Label :=
  [.submitOk (some 5), .acquire 0, .dequeue 0, .publish 0, .release 0]

/-- The quiescent pool at the end of `lsQuiet`. -/
def sQuiet : PoolState := runL initA lsQuiet

/-- The `lsQuiet` run just after the dequeue: the worker has processed the
task and stands at `p.results <- result` with the buffer still empty. -/
def sMid : PoolState := runL initA [.submitOk (some 5), .acquire 0, .dequeue 0]

/-- Continue `lsQuiet`: a second task is submitted and dequeued while the
first result still fills the `results` buffer (capacity 1) because the
consumer has not read it.  The worker is now at `p.results <- result` with
no buffer space. -/
def lsFull : List Label := lsQuiet ++ [.submitOk (some 7), .acquire 0, .dequeue 0]

/-- The pool at the end of `lsFull`: worker 0 is in phase
`sending (some 7)` and `results` is full. -/
def sFull : PoolState := runL initA lsFull

/-- Continue `lsFull`: `Stop()` is called — cancellation fires and the
`tasks` channel closes — while the worker is still stuck publishing. -/
def lsStuck : List Label := lsFull ++ [.stopCancel, .stopCloseTasks]

/-- The pool at the end of `lsStuck`: `Stop` is blocked in `wg.Wait`,
the worker is blocked in `p.results <- result`, and only the consumer
could make any transition. -/
def sStuck : PoolState := runL initA lsStuck

/-- Run: the worker's very first transition is taking the rate-limiter
token — before any task exists anywhere. -/
def sAcq : PoolState := runL initA [.acquire 0]

/-- The `lsDrop` run just before `wg.Wait` returns: the worker has exited,
`Stop` sits in `p.wg.Wait()`. -/
def sWaitReady : PoolState :=
  runL initA [.submitOk (some 42), .stopCancel, .stopCloseTasks, .exitOuter 0]

/-- A handler context for the processor worker: empty `errors` channel of
capacity 2, fresh response channel with buffer space. -/
def hctx0 : HandlerCtx :=
  { errorsChan := [], errorsCap := 2, respFree := true, respDelivered := none,
    respClosed := false }

theorem validRun_reachable (c : PoolState) (ls : List Label) (h : validRun c ls = true) :
    Reachable c (runL c ls) := by
  induction ls generalizing c with
  | nil => exact Relation.ReflTransGen.refl
  | cons l ls ih =>
    unfold validRun at h
    cases hs : stepFn l c with
    | none => rw [hs] at h; exact absurd h (by simp)
    | some c2 =>
      rw [hs] at h
      have hrun : runL c (l :: ls) = runL c2 ls := by simp [runL, hs]
      rw [hrun]
      exact Relation.ReflTransGen.head ⟨l, hs⟩ (ih c2 h)

theorem wsum_set (f : WState → Nat) (l : List WState) (w : Nat) (ws a : WState)
    (h : l[w]? = some ws) :
    wsum f (l.set w a) + f ws = wsum f l + f a := by
  induction l generalizing w with
  | nil => simp at h
  | cons x xs ih =>
    cases w with
    | zero =>
      simp at h
      subst h
      simp [wsum]
      omega
    | succ n =>
      simp at h
      have hx := ih n h
      simp [wsum] at hx ⊢
      omega

theorem inv_init (W qs : Nat) (d : Int) : PoolInv W qs (NewStatefulPool W qs d) := by
  constructor <;>
    simp [NewStatefulPool, sumWork, countSending, heldPermits, circulation, producedCount,
      wsum, sendInd, holdInd, List.map_replicate]

theorem inv_step {W qs : Nat} {l : Label} {c c' : PoolState}
    (h : stepFn l c = some c') (hc : PoolInv W qs c) : PoolInv W qs c' := by
  obtain ⟨capP, capQ, capR, lenW, subEq, workEq, deqEq, permEq⟩ := hc
  cases l with
  | submitOk t =>
    simp only [stepFn] at h
    split at h
    · obtain rfl := Option.some.inj h
      exact ⟨capP, capQ, capR, lenW, by simp; omega,
        by simpa [sumWork, countSending, producedCount, wsum] using workEq,
        by simpa [sumWork, wsum] using deqEq,
        by simpa [circulation, heldPermits, wsum] using permEq⟩
    · exact absurd h (by simp)
  | exitOuter w =>
    simp only [stepFn] at h
    cases hw : c.workers[w]? with
    | none => simp [hw] at h
    | some ws =>
      simp only [hw] at h
      split at h
      case isTrue hg =>
        obtain rfl := Option.some.inj h
        have hW := wsum_set (fun ws => ws.workCount) c.workers w ws { ws with phase := .exited } hw
        have hS := wsum_set sendInd c.workers w ws { ws with phase := .exited } hw
        have hH := wsum_set holdInd c.workers w ws { ws with phase := .exited } hw
        refine ⟨capP, capQ, capR, by simpa using lenW, by simpa using subEq, ?_, ?_, ?_⟩ <;>
          simp_all [sumWork, countSending, heldPermits, circulation, producedCount, wsum,
            sendInd, holdInd, hg.1] <;> omega
      case isFalse => exact absurd h (by simp)
  | acquire w =>
    simp only [stepFn] at h
    cases hw : c.workers[w]? with
    | none => simp [hw] at h
    | some ws =>
      simp only [hw] at h
      split at h
      case isTrue hg =>
        obtain rfl := Option.some.inj h
        have hW := wsum_set (fun ws => ws.workCount) c.workers w ws { ws with phase := .holding } hw
        have hS := wsum_set sendInd c.workers w ws { ws with phase := .holding } hw
        have hH := wsum_set holdInd c.workers w ws { ws with phase := .holding } hw
        refine ⟨capP, capQ, capR, by simpa using lenW, by simpa using subEq, ?_, ?_, ?_⟩ <;>
          simp_all [sumWork, countSending, heldPermits, circulation, producedCount, wsum,
            sendInd, holdInd, hg.1] <;> omega
      case isFalse => exact absurd h (by simp)
  | dequeue w =>
    simp only [stepFn] at h
    cases hw : c.workers[w]? with
    | none => simp [hw] at h
    | some ws =>
      simp only [hw] at h
      cases ht : c.tasks with
      | nil => simp [ht] at h
      | cons t rest =>
        simp only [ht] at h
        split at h
        case isTrue hg =>
          obtain rfl := Option.some.inj h
          have hW := wsum_set (fun ws => ws.workCount) c.workers w ws
            { phase := .sending (processTask ws t), workCount := ws.workCount + 1,
              lastWork := c.clock + 1 } hw
          have hS := wsum_set sendInd c.workers w ws
            { phase := .sending (processTask ws t), workCount := ws.workCount + 1,
              lastWork := c.clock + 1 } hw
          have hH := wsum_set holdInd c.workers w ws
            { phase := .sending (processTask ws t), workCount := ws.workCount + 1,
              lastWork := c.clock + 1 } hw
          refine ⟨capP, capQ, capR, by simpa using lenW, ?_, ?_, ?_, ?_⟩ <;>
            simp_all [sumWork, countSending, heldPermits, circulation, producedCount, wsum,
              sendInd, holdInd, hg] <;> omega
        case isFalse => exact absurd h (by simp)
  | recvClosed w =>
    simp only [stepFn] at h
    cases hw : c.workers[w]? with
    | none => simp [hw] at h
    | some ws =>
      simp only [hw] at h
      split at h
      case isTrue hg =>
        obtain rfl := Option.some.inj h
        have hW := wsum_set (fun ws => ws.workCount) c.workers w ws
          { phase := .sending (processTask ws none), workCount := ws.workCount + 1,
            lastWork := c.clock + 1 } hw
        have hS := wsum_set sendInd c.workers w ws
          { phase := .sending (processTask ws none), workCount := ws.workCount + 1,
            lastWork := c.clock + 1 } hw
        have hH := wsum_set holdInd c.workers w ws
          { phase := .sending (processTask ws none), workCount := ws.workCount + 1,
            lastWork := c.clock + 1 } hw
        refine ⟨capP, capQ, capR, by simpa using lenW, ?_, ?_, ?_, ?_⟩ <;>
          simp_all [sumWork, countSending, heldPermits, circulation, producedCount, wsum,
            sendInd, holdInd, hg.1, hg.2.1] <;> omega
      case isFalse => exact absurd h (by simp)
  | exitInner w =>
    simp only [stepFn] at h
    cases hw : c.workers[w]? with
    | none => simp [hw] at h
    | some ws =>
      simp only [hw] at h
      split at h
      case isTrue hg =>
        obtain rfl := Option.some.inj h
        have hW := wsum_set (fun ws => ws.workCount) c.workers w ws { ws with phase := .exited } hw
        have hS := wsum_set sendInd c.workers w ws { ws with phase := .exited } hw
        have hH := wsum_set holdInd c.workers w ws { ws with phase := .exited } hw
        refine ⟨capP, capQ, capR, by simpa using lenW, by simpa using subEq, ?_, ?_, ?_⟩ <;>
          simp_all [sumWork, countSending, heldPermits, circulation, producedCount, wsum,
            sendInd, holdInd, hg.1] <;> omega
      case isFalse => exact absurd h (by simp)
  | publish w =>
    simp only [stepFn] at h
    cases hw : c.workers[w]? with
    | none => simp [hw] at h
    | some ws =>
      simp only [hw] at h
      cases hph : ws.phase with
      | sending r =>
        simp only [hph] at h
        split at h
        case isTrue hg =>
          obtain rfl := Option.some.inj h
          have hW := wsum_set (fun ws => ws.workCount) c.workers w ws { ws with phase := .returning } hw
          have hS := wsum_set sendInd c.workers w ws { ws with phase := .returning } hw
          have hH := wsum_set holdInd c.workers w ws { ws with phase := .returning } hw
          refine ⟨capP, capQ, capR, by simpa using lenW, by simpa using subEq, ?_, ?_, ?_⟩ <;>
            simp_all [sumWork, countSending, heldPermits, circulation, producedCount, wsum,
              sendInd, holdInd, hph] <;> omega
        case isFalse => exact absurd h (by simp)
      | idle => simp [hph] at h
      | holding => simp [hph] at h
      | returning => simp [hph] at h
      | exited => simp [hph] at h
  | release w =>
    simp only [stepFn] at h
    cases hw : c.workers[w]? with
    | none => simp [hw] at h
    | some ws =>
      simp only [hw] at h
      split at h
      case isTrue hg =>
        obtain rfl := Option.some.inj h
        have hW := wsum_set (fun ws => ws.workCount) c.workers w ws { ws with phase := .idle } hw
        have hS := wsum_set sendInd c.workers w ws { ws with phase := .idle } hw
        have hH := wsum_set holdInd c.workers w ws { ws with phase := .idle } hw
        refine ⟨capP, capQ, capR, by simpa using lenW, by simpa using subEq, ?_, ?_, ?_⟩ <;>
          simp_all [sumWork, countSending, heldPermits, circulation, producedCount, wsum,
            sendInd, holdInd, hg.1] <;> omega
      case isFalse => exact absurd h (by simp)
  | consume =>
    simp only [stepFn] at h
    cases ht : c.results with
    | nil => simp [ht] at h
    | cons r rest =>
      simp only [ht] at h
      obtain rfl := Option.some.inj h
      refine ⟨capP, capQ, capR, by simpa using lenW, by simpa using subEq, ?_, ?_, ?_⟩ <;>
        simp_all [sumWork, countSending, heldPermits, circulation, producedCount, wsum] <;>
          omega
  | stopCancel =>
    simp only [stepFn] at h
    split at h
    · obtain rfl := Option.some.inj h
      exact ⟨capP, capQ, capR, by simpa using lenW, by simpa using subEq,
        by simpa [sumWork, countSending, producedCount, wsum] using workEq,
        by simpa [sumWork, wsum] using deqEq,
        by simpa [circulation, heldPermits, wsum] using permEq⟩
    · exact absurd h (by simp)
  | stopCloseTasks =>
    simp only [stepFn] at h
    split at h
    · obtain rfl := Option.some.inj h
      exact ⟨capP, capQ, capR, by simpa using lenW, by simpa using subEq,
        by simpa [sumWork, countSending, producedCount, wsum] using workEq,
        by simpa [sumWork, wsum] using deqEq,
        by simpa [circulation, heldPermits, wsum] using permEq⟩
    · exact absurd h (by simp)
  | stopWait =>
    simp only [stepFn] at h
    split at h
    · obtain rfl := Option.some.inj h
      exact ⟨capP, capQ, capR, by simpa using lenW, by simpa using subEq,
        by simpa [sumWork, countSending, producedCount, wsum] using workEq,
        by simpa [sumWork, wsum] using deqEq,
        by simpa [circulation, heldPermits, wsum] using permEq⟩
    · exact absurd h (by simp)
  | stopCloseResults =>
    simp only [stepFn] at h
    split at h
    · obtain rfl := Option.some.inj h
      exact ⟨capP, capQ, capR, by simpa using lenW, by simpa using subEq,
        by simpa [sumWork, countSending, producedCount, wsum] using workEq,
        by simpa [sumWork, wsum] using deqEq,
        by simpa [circulation, heldPermits, wsum] using permEq⟩
    · exact absurd h (by simp)

theorem inv_reachable {W qs : Nat} {d : Int} {c : PoolState}
    (h : Reachable (NewStatefulPool W qs d) c) : PoolInv W qs c := by
  induction h with
  | refl => exact inv_init W qs d
  | tail _ hbc ih =>
    obtain ⟨l, hl⟩ := hbc
    exact inv_step hl ih

theorem stepFn_oob {c : PoolState} {w : Nat} (hlen : c.workers.length ≤ w) :
    stepFn (.exitOuter w) c = none ∧ stepFn (.acquire w) c = none ∧
    stepFn (.dequeue w) c = none ∧ stepFn (.recvClosed w) c = none ∧
    stepFn (.exitInner w) c = none ∧ stepFn (.publish w) c = none ∧
    stepFn (.release w) c = none := by
  have h : c.workers[w]? = none := List.getElem?_eq_none hlen
  refine ⟨?_, ?_, ?_, ?_, ?_, ?_, ?_⟩ <;> simp [stepFn, h]

theorem stepFn_submit_closed {c : PoolState} (hc : tasksChanClosed c) (t : Val) :
    stepFn (.submitOk t) c = none := by
  simp only [stepFn]
  rw [if_neg]
  intro hcon
  exact hcon.1 hc

theorem stats_workCount (c : PoolState) :
    (GetWorkerStats c).map (fun s => s.workCount) = c.workers.map (fun ws => ws.workCount) := by
  unfold GetWorkerStats
  rw [List.map_map]
  have h : c.workers.enum.map Prod.snd = c.workers := List.enum_map_snd c.workers
  calc c.workers.enum.map ((fun s : WorkerStats => s.workCount) ∘
        fun p : Nat × WState => { id := p.1, lastWork := p.2.lastWork, workCount := p.2.workCount })
      = (c.workers.enum.map Prod.snd).map (fun ws => ws.workCount) := by
        rw [List.map_map]; rfl
    _ = c.workers.map (fun ws => ws.workCount) := by rw [h]

theorem countSending_eq_zero {c : PoolState} (h : Quiescent c) : countSending c = 0 := by
  unfold countSending wsum
  refine List.sum_eq_zero ?_
  intro x hx
  obtain ⟨ws, hws, rfl⟩ := List.mem_map.mp hx
  exact h ws hws

theorem foldl_metrics (ops : List MetricOp) (m : MetricsCollector) :
    (ops.foldl applyOp m).processed = m.processed + countProcessed ops ∧
    (ops.foldl applyOp m).errors = m.errors + countErrors ops ∧
    (ops.foldl applyOp m).duration = m.duration + sumDuration ops := by
  induction ops generalizing m with
  | nil => simp [countProcessed, countErrors, sumDuration]
  | cons o ops ih =>
    obtain ⟨ih1, ih2, ih3⟩ := ih (applyOp m o)
    cases o <;>
      simp_all [applyOp, IncrementProcessed, IncrementErrors, AddDuration,
        countProcessed, countErrors, sumDuration] <;>
      omega

/-! ### Claims -/

/-- **C1** (code fault, settled against the code): after `Stop()` has
completed, `Submit(task)` never blocks, but it does not always return the
pool-closed error: both `select` cases are ready — `ctx.Done()` is closed
*and* the send on the closed `tasks` channel "can proceed" by panicking —
so when the runtime picks the send case the call faults (panic: send on
closed channel) instead of returning `SubmissionRejected`. -/
theorem c1_submit_after_stop :
    Reachable (NewStatefulPool 1 1 0) sStopped ∧ sStopped.stopPhase = .stopped ∧
    Submit sStopped (some 6) true = .faulted ∧
    Submit sStopped (some 6) false = .rejected :=
  ⟨validRun_reachable initA lsDrop (by decide), by decide, by decide, by decide⟩

/-- **C2** (counterexample): a complete run in which one task is submitted
successfully to the `Running` pool before `Stop()`, the consumer reads
everything that ever appears (nothing does), `Stop` completes — and zero
results are produced.  `Stop` fires cancellation before closing the queue,
and the worker's outer `select` takes the `ctx.Done()` exit without
draining, so the accepted task is dropped: it is still sitting in the
closed `tasks` channel when the pool is `stopped`. -/
theorem c2_counterexample :
    Reachable (NewStatefulPool 1 1 0) sStopped ∧ sStopped.stopPhase = .stopped ∧
    sStopped.submittedCount = 1 ∧ producedCount sStopped = 0 ∧
    sStopped.results = [] ∧ sStopped.resultsClosed = true ∧
    sStopped.tasks = [some 42] :=
  ⟨validRun_reachable initA lsDrop (by decide), by decide, by decide, by decide,
    by decide, by decide, by decide⟩

/-- **C2 amended**: what the code does guarantee, in every reachable state:
each successfully submitted task is either still buffered in `tasks` or was
dequeued by exactly one worker iteration (never duplicated, but possibly
abandoned in the queue at shutdown); and each dequeue or nil-receive leads
to exactly one result — pending in a worker or delivered on `results` —
so results beyond the submitted tasks can only be the spurious nil values
received from the closed queue. -/
theorem c2_amended_conservation : ∀ {W qs : Nat} {d : Int} {c : PoolState},
    Reachable (NewStatefulPool W qs d) c →
    c.submittedCount = c.dequeuedCount + c.tasks.length ∧
    c.dequeuedCount + c.nilRecvCount = producedCount c + countSending c := by
  intro W qs d c h
  have hi := inv_reachable h
  have h1 := hi.workEq
  have h2 := hi.deqEq
  exact ⟨hi.subEq, by omega⟩

/-- Witness for `c2_amended_conservation` at the end of the `lsDrop` run. -/
theorem c2_amended_witness :
    sStopped.submittedCount = sStopped.dequeuedCount + sStopped.tasks.length ∧
    sStopped.dequeuedCount + sStopped.nilRecvCount =
      producedCount sStopped + countSending sStopped :=
  c2_amended_conservation (validRun_reachable initA lsDrop (by decide))

/-- **C3** (counterexample): permits are *not* conserved when a worker
exits due to cancellation.  In the `lsLeak` run the single worker acquires
the token, cancellation fires, and the inner `select`'s `ctx.Done()` branch
returns from `runWorker` without `p.rateLimiter <- struct{}{}`: the
circulation drops from the initial 1 to 0 — the permit is destroyed. -/
theorem c3_counterexample :
    Reachable (NewStatefulPool 1 1 0) sLeak ∧
    (NewStatefulPool 1 1 0).permitCap = 1 ∧ circulation (NewStatefulPool 1 1 0) = 1 ∧
    circulation sLeak = 0 ∧ heldPermits sLeak = 0 ∧ sLeak.permits = 0 :=
  ⟨validRun_reachable initA lsLeak (by decide), by decide, by decide, by decide,
    by decide, by decide⟩

/-- **C3 amended**: permits are never *created* and the circulation never
exceeds the initial count: in every reachable state, permits in circulation
plus permits leaked by cancellation-exits equal the initial count `W`, so
`circulation c ≤ W` and at most `W` are held by in-flight executions — but
a worker exiting on the inner `ctx.Done()` branch while holding a token
destroys it (`leakedPermits` grows). -/
theorem c3_amended_permits : ∀ {W qs : Nat} {d : Int} {c : PoolState},
    Reachable (NewStatefulPool W qs d) c →
    circulation c + c.leakedPermits = W ∧ circulation c ≤ W ∧ heldPermits c ≤ W := by
  intro W qs d c h
  have hi := (inv_reachable h).permEq
  unfold circulation at hi ⊢
  omega

/-- Witness for `c3_amended_permits` at the end of the `lsLeak` run. -/
theorem c3_amended_witness :
    circulation sLeak + sLeak.leakedPermits = 1 ∧ circulation sLeak ≤ 1 ∧
    heldPermits sLeak ≤ 1 :=
  c3_amended_permits (validRun_reachable initA lsLeak (by decide))

/-- **C4** (counterexample): the claimed iteration order "pull the next
task, then acquire a permit" is refuted: in `sAcq` the worker holds a
rate-limiter permit although no task was ever submitted, let alone pulled —
the outer `select` acquires the permit *first*, before the worker ever
looks at the `tasks` channel. -/
theorem c4_counterexample :
    Reachable (NewStatefulPool 1 1 0) sAcq ∧
    heldPermits sAcq = 1 ∧ sAcq.dequeuedCount = 0 ∧ sAcq.nilRecvCount = 0 ∧
    sAcq.submittedCount = 0 ∧ sAcq.tasks = [] :=
  ⟨validRun_reachable initA [.acquire 0] (by decide), by decide, by decide, by decide,
    by decide, by decide⟩

/-- **C7** (counterexample): `worker.go` has no `recover()`, so a panic
raised inside `processor.Process` is *not* converted into a failed result:
it crashes the worker goroutine instead of letting it continue. -/
theorem c7_counterexample :
    handleRequest hctx0 (.panicked "boom") = .crashed "boom" ∧
    survives (handleRequest hctx0 (.panicked "boom")) = false :=
  ⟨rfl, rfl⟩

/-- **C7 amended**: an execution failure *returned as an error* is captured
at the loop boundary — the error goes to the `errors` channel when it has
space (and is dropped, not blocking, when full), the result is still
delivered when the response buffer is free, the response channel is closed,
and the worker continues; but a *panic* during execution is not caught and
crashes the worker. -/
theorem c7_amended_error_captured : ∀ (s : HandlerCtx) (r : Nat) (e msg : String),
    (∃ s2, handleRequest s (.ret r (some e)) = .continues s2 ∧ s2.respClosed = true ∧
      (s.errorsChan.length < s.errorsCap → s2.errorsChan = s.errorsChan ++ [e]) ∧
      (¬ s.errorsChan.length < s.errorsCap → s2.errorsChan = s.errorsChan) ∧
      (s.respFree = true → s2.respDelivered = some r)) ∧
    handleRequest s (.panicked msg) = .crashed msg := by
  intro s r e msg
  refine ⟨?_, rfl⟩
  by_cases herr : s.errorsChan.length < s.errorsCap <;>
    by_cases hresp : s.respFree = true <;>
    refine ⟨_, rfl, ?_, ?_, ?_, ?_⟩ <;>
    simp [handleRequest, herr, hresp]

/-- Witness for `c7_amended_error_captured` on the fresh handler context. -/
theorem c7_amended_witness :
    ∃ s2, handleRequest hctx0 (.ret 3 (some "fail")) = .continues s2 ∧
      s2.respClosed = true ∧ s2.errorsChan = ["fail"] ∧ s2.respDelivered = some 3 := by
  obtain ⟨s2, h1, h2, h3, _, h5⟩ := (c7_amended_error_captured hctx0 3 "fail" "ignored").1
  exact ⟨s2, h1, h2, by simpa [hctx0] using h3 (by decide), h5 (by decide)⟩

/-- **C8**: after any history of collector calls, `GetMetrics` returns the
number of `IncrementProcessed` calls, the number of `IncrementErrors`
calls, and the cumulative duration divided (truncated, as Go does) by the
processed count when it is positive and `0` when it is zero. -/
theorem c8_getMetrics_avg : ∀ ops : List MetricOp,
    GetMetrics (ops.foldl applyOp newMetricsCollector) =
      (countProcessed ops, countErrors ops,
        if 0 < countProcessed ops then (sumDuration ops).tdiv (countProcessed ops : Int)
        else 0) := by
  intro ops
  obtain ⟨h1, h2, h3⟩ := foldl_metrics ops newMetricsCollector
  simp only [newMetricsCollector] at h1 h2 h3
  simp [GetMetrics, newMetricsCollector, h1, h2, h3]

/-- **C9**: in every reachable quiescent state (no worker between its
state update and its result delivery), the `WorkCount` total over the
entries of `GetWorkerStats()` equals the total number of results ever
delivered on the outbound channel. -/
theorem c9_workcount_results : ∀ {W qs : Nat} {d : Int} {c : PoolState},
    Reachable (NewStatefulPool W qs d) c → Quiescent c →
    ((GetWorkerStats c).map (fun s => s.workCount)).sum = producedCount c := by
  intro W qs d c h hq
  have hw := (inv_reachable h).workEq
  rw [countSending_eq_zero hq] at hw
  rw [stats_workCount]
  simpa [sumWork, wsum] using hw

/-- Witness for `c9_workcount_results` at the quiescent end of `lsQuiet`,
where one task has been fully processed and delivered. -/
theorem c9_witness :
    ((GetWorkerStats sQuiet).map (fun s => s.workCount)).sum = producedCount sQuiet ∧
    producedCount sQuiet = 1 :=
  ⟨c9_workcount_results (validRun_reachable initA lsQuiet (by decide)) (by decide),
    by decide⟩

/-- **C10**: the `rateLimit` duration argument of `NewStatefulPool` has no
effect whatsoever on the constructed pool — the results of any two calls
with the same worker count and queue size are equal — and the rate
limiter's permit capacity (and its initial fill) always equals the worker
count. -/
theorem c10_rateLimit_no_effect : ∀ (workers queueSize : Nat) (d1 d2 : Int),
    NewStatefulPool workers queueSize d1 = NewStatefulPool workers queueSize d2 ∧
    (NewStatefulPool workers queueSize d1).permitCap = workers ∧
    (NewStatefulPool workers queueSize d1).permits = workers ∧
    (NewStatefulPool workers queueSize d1).workers.length = workers :=
  fun _ _ _ _ => ⟨rfl, rfl, rfl, by simp [NewStatefulPool]⟩

/-- **C4 amended**: the order the worker loop actually follows.  A permit
acquisition happens only from the top of the loop (phase `idle`, token
available) and *precedes* any look at the task queue; a task dequeue (and,
in the same code path, a nil receive from the closed drained queue — the
worker does **not** exit on a closed empty queue) happens only while
holding the permit, and it is this transition that updates the worker's
`LastWork`/`WorkCount` under its lock and computes the result, *before*
the result delivery; the delivery (`publish`) happens only from phase
`sending`, and the permit is returned only after it; the two exits are the
outer and inner `ctx.Done()` branches, the inner one leaking the held
permit. -/
theorem c4_amended_loop_order : ∀ (c c2 : PoolState) (w : Nat),
    (stepFn (.acquire w) c = some c2 →
      ∃ ws, c.workers[w]? = some ws ∧ ws.phase = .idle ∧ 0 < c.permits ∧
        c2.workers = c.workers.set w { ws with phase := .holding } ∧
        c2.tasks = c.tasks) ∧
    (stepFn (.exitOuter w) c = some c2 →
      ∃ ws, c.workers[w]? = some ws ∧ ws.phase = .idle ∧ ctxCanceled c) ∧
    (stepFn (.dequeue w) c = some c2 →
      ∃ ws t rest, c.workers[w]? = some ws ∧ ws.phase = .holding ∧
        c.tasks = t :: rest ∧ c2.tasks = rest ∧
        c2.workers = c.workers.set w
          { phase := .sending (processTask ws t), workCount := ws.workCount + 1,
            lastWork := c.clock + 1 }) ∧
    (stepFn (.recvClosed w) c = some c2 →
      ∃ ws, c.workers[w]? = some ws ∧ ws.phase = .holding ∧ c.tasks = [] ∧
        tasksChanClosed c ∧
        c2.workers = c.workers.set w
          { phase := .sending (processTask ws none), workCount := ws.workCount + 1,
            lastWork := c.clock + 1 }) ∧
    (stepFn (.exitInner w) c = some c2 →
      ∃ ws, c.workers[w]? = some ws ∧ ws.phase = .holding ∧ ctxCanceled c ∧
        c2.leakedPermits = c.leakedPermits + 1) ∧
    (stepFn (.publish w) c = some c2 →
      ∃ ws r, c.workers[w]? = some ws ∧ ws.phase = .sending r ∧
        c2.results = c.results ++ [r] ∧
        c2.workers = c.workers.set w { ws with phase := .returning }) ∧
    (stepFn (.release w) c = some c2 →
      ∃ ws, c.workers[w]? = some ws ∧ ws.phase = .returning ∧
        c2.permits = c.permits + 1 ∧
        c2.workers = c.workers.set w { ws with phase := .idle }) := by
  intro c c2 w
  refine ⟨?_, ?_, ?_, ?_, ?_, ?_, ?_⟩ <;> intro h <;> simp only [stepFn] at h
  · cases hw : c.workers[w]? with
    | none => simp [hw] at h
    | some ws =>
      simp only [hw] at h
      split at h
      case isTrue hg =>
        obtain rfl := Option.some.inj h
        exact ⟨ws, rfl, hg.1, hg.2, rfl, rfl⟩
      case isFalse => exact Option.noConfusion h
  · cases hw : c.workers[w]? with
    | none => simp [hw] at h
    | some ws =>
      simp only [hw] at h
      split at h
      case isTrue hg => exact ⟨ws, rfl, hg.1, hg.2⟩
      case isFalse => exact Option.noConfusion h
  · cases hw : c.workers[w]? with
    | none => simp [hw] at h
    | some ws =>
      simp only [hw] at h
      cases ht : c.tasks with
      | nil => simp [ht] at h
      | cons t rest =>
        simp only [ht] at h
        split at h
        case isTrue hg =>
          obtain rfl := Option.some.inj h
          exact ⟨ws, t, rest, rfl, hg, rfl, rfl, rfl⟩
        case isFalse => exact Option.noConfusion h
  · cases hw : c.workers[w]? with
    | none => simp [hw] at h
    | some ws =>
      simp only [hw] at h
      split at h
      case isTrue hg =>
        obtain rfl := Option.some.inj h
        exact ⟨ws, rfl, hg.1, hg.2.1, hg.2.2, rfl⟩
      case isFalse => exact Option.noConfusion h
  · cases hw : c.workers[w]? with
    | none => simp [hw] at h
    | some ws =>
      simp only [hw] at h
      split at h
      case isTrue hg =>
        obtain rfl := Option.some.inj h
        exact ⟨ws, rfl, hg.1, hg.2, rfl⟩
      case isFalse => exact Option.noConfusion h
  · cases hw : c.workers[w]? with
    | none => simp [hw] at h
    | some ws =>
      simp only [hw] at h
      cases hph : ws.phase with
      | sending r =>
        simp only [hph] at h
        split at h
        case isTrue hg =>
          obtain rfl := Option.some.inj h
          exact ⟨ws, r, rfl, hph, rfl, rfl⟩
        case isFalse => exact Option.noConfusion h
      | idle => simp [hph] at h
      | holding => simp [hph] at h
      | returning => simp [hph] at h
      | exited => simp [hph] at h
  · cases hw : c.workers[w]? with
    | none => simp [hw] at h
    | some ws =>
      simp only [hw] at h
      split at h
      case isTrue hg =>
        obtain rfl := Option.some.inj h
        exact ⟨ws, rfl, hg.1, rfl, rfl⟩
      case isFalse => exact Option.noConfusion h

/-- Witness for `c4_amended_loop_order`: the first transition of the
`lsQuiet` run after the submission is exactly such a permit acquisition. -/
theorem c4_amended_witness :
    ∃ ws, initA.workers[0]? = some ws ∧ ws.phase = .idle ∧ 0 < initA.permits ∧
      sAcq.workers = initA.workers.set 0 { ws with phase := .holding } ∧
      sAcq.tasks = initA.tasks :=
  (c4_amended_loop_order initA sAcq 0).1 (by decide)

/-- In `sFull`, worker 0 has no enabled transition whatsoever: every label
acting for worker 0 is disabled (supporting fact for the C5/C6 analysis;
the per-label disabledness is restated decidably inside the claim
theorems). -/
theorem sFull_worker_blocked : ∀ l c2, stepFn l sFull = some c2 → workerOf l ≠ some 0 := by
  intro l c2 h hl
  cases l <;> simp only [workerOf, Option.some.injEq, reduceCtorEq] at hl <;> subst hl
  case exitOuter =>
    rw [show stepFn (.exitOuter 0) sFull = none from by decide] at h
    exact Option.noConfusion h
  case acquire =>
    rw [show stepFn (.acquire 0) sFull = none from by decide] at h
    exact Option.noConfusion h
  case dequeue =>
    rw [show stepFn (.dequeue 0) sFull = none from by decide] at h
    exact Option.noConfusion h
  case recvClosed =>
    rw [show stepFn (.recvClosed 0) sFull = none from by decide] at h
    exact Option.noConfusion h
  case exitInner =>
    rw [show stepFn (.exitInner 0) sFull = none from by decide] at h
    exact Option.noConfusion h
  case publish =>
    rw [show stepFn (.publish 0) sFull = none from by decide] at h
    exact Option.noConfusion h
  case release =>
    rw [show stepFn (.release 0) sFull = none from by decide] at h
    exact Option.noConfusion h

/-- **C5** (counterexample): the result publish of the stateful pool's
worker is a plain blocking send, not a try-send.  In the reachable state
`sFull` the worker has processed a task (`sending (some 7)`) while the
`results` buffer is full and unread; the publish transition is disabled,
nothing is dropped, and indeed *none* of worker 0's seven possible
transitions is enabled — the worker blocks — refuting "the publish is a
non-blocking send that drops the result" (see also
`sFull_worker_blocked`). -/
theorem c5_counterexample :
    Reachable (NewStatefulPool 1 1 0) sFull ∧
    sFull.workers[0]? = some { phase := .sending (some 7), workCount := 2, lastWork := 8 } ∧
    sFull.results.length = sFull.resultsCap ∧
    stepFn (.publish 0) sFull = none ∧
    stepFn (.exitOuter 0) sFull = none ∧ stepFn (.acquire 0) sFull = none ∧
    stepFn (.dequeue 0) sFull = none ∧ stepFn (.recvClosed 0) sFull = none ∧
    stepFn (.exitInner 0) sFull = none ∧ stepFn (.release 0) sFull = none :=
  ⟨validRun_reachable initA lsFull (by decide), by decide, by decide, by decide,
    by decide, by decide, by decide, by decide, by decide, by decide⟩

/-- **C5 amended**: in the stateful pool, a worker that has processed a
task can deliver its result *iff* the `results` buffer has free space (and
the channel is not closed); with a full buffer it waits — the send-or-drop
policy exists only in the processor `WorkerPool`'s per-request response
delivery (`handleRequest`), not here. -/
theorem c5_amended_publish_blocking : ∀ (c : PoolState) (w : Nat) (ws : WState) (r : Val),
    c.workers[w]? = some ws → ws.phase = .sending r →
    ((∃ c2, stepFn (.publish w) c = some c2) ↔
      c.resultsClosed = false ∧ c.results.length < c.resultsCap) := by
  intro c w ws r hw hph
  constructor
  · rintro ⟨c2, h⟩
    simp only [stepFn, hw, hph] at h
    by_contra hcon
    rw [if_neg hcon] at h
    exact Option.noConfusion h
  · intro hsp
    simp only [stepFn, hw, hph]
    rw [if_pos hsp]
    exact ⟨_, rfl⟩

/-- Witness for `c5_amended_publish_blocking` at `sMid`, where the buffer
has space: the publish step exists. -/
theorem c5_amended_witness : ∃ c2, stepFn (.publish 0) sMid = some c2 :=
  (c5_amended_publish_blocking sMid 0
    { phase := .sending (some 5), workCount := 1, lastWork := 3 } (some 5)
    (by decide) (by decide)).mpr (by decide)

/-- **C6** (counterexample): `Stop()` does *not* always complete.  In the
reachable state `sStuck`, `Stop` has fired cancellation and closed the
queue and is blocked in `wg.Wait`, while the worker is blocked in
`p.results <- result` on the full, unread `results` buffer.  The only
transition whatsoever is a consumer read — so if the consumer has stopped
reading the results channel, no step is possible and `Stop` never
returns. -/
theorem c6_counterexample :
    Reachable (NewStatefulPool 1 1 0) sStuck ∧ sStuck.stopPhase = .queueClosed ∧
    sStuck.results.length = sStuck.resultsCap ∧
    sStuck.workers[0]? = some { phase := .sending (some 7), workCount := 2, lastWork := 8 } ∧
    stepFn .stopWait sStuck = none ∧
    stepFn (.publish 0) sStuck = none ∧ stepFn (.exitOuter 0) sStuck = none ∧
    stepFn (.acquire 0) sStuck = none ∧ stepFn (.dequeue 0) sStuck = none ∧
    stepFn (.recvClosed 0) sStuck = none ∧ stepFn (.exitInner 0) sStuck = none ∧
    stepFn (.release 0) sStuck = none ∧ (stepFn .consume sStuck).isSome = true :=
  ⟨validRun_reachable initA lsStuck (by decide), by decide, by decide, by decide,
    by decide, by decide, by decide, by decide, by decide, by decide, by decide,
    by decide, by decide⟩

/-- In `sStuck` the *only* enabled transition in the whole system is a
consumer read: every other label — any submission, any worker transition,
any progress of `Stop` — is disabled (supporting fact for C6: with the
consumer gone, the system is deadlocked and `Stop` never returns). -/
theorem sStuck_only_consume : ∀ l c2, stepFn l sStuck = some c2 → l = .consume := by
  intro l c2 h
  have hlen1 : sStuck.workers.length = 1 := by decide
  cases l with
  | submitOk t =>
    rw [stepFn_submit_closed (by decide) t] at h
    exact Option.noConfusion h
  | consume => rfl
  | exitOuter w =>
    exfalso
    cases w with
    | zero =>
      rw [show stepFn (.exitOuter 0) sStuck = none from by decide] at h
      exact Option.noConfusion h
    | succ n =>
      rw [(stepFn_oob (by omega : sStuck.workers.length ≤ n + 1)).1] at h
      exact Option.noConfusion h
  | acquire w =>
    exfalso
    cases w with
    | zero =>
      rw [show stepFn (.acquire 0) sStuck = none from by decide] at h
      exact Option.noConfusion h
    | succ n =>
      rw [(stepFn_oob (by omega : sStuck.workers.length ≤ n + 1)).2.1] at h
      exact Option.noConfusion h
  | dequeue w =>
    exfalso
    cases w with
    | zero =>
      rw [show stepFn (.dequeue 0) sStuck = none from by decide] at h
      exact Option.noConfusion h
    | succ n =>
      rw [(stepFn_oob (by omega : sStuck.workers.length ≤ n + 1)).2.2.1] at h
      exact Option.noConfusion h
  | recvClosed w =>
    exfalso
    cases w with
    | zero =>
      rw [show stepFn (.recvClosed 0) sStuck = none from by decide] at h
      exact Option.noConfusion h
    | succ n =>
      rw [(stepFn_oob (by omega : sStuck.workers.length ≤ n + 1)).2.2.2.1] at h
      exact Option.noConfusion h
  | exitInner w =>
    exfalso
    cases w with
    | zero =>
      rw [show stepFn (.exitInner 0) sStuck = none from by decide] at h
      exact Option.noConfusion h
    | succ n =>
      rw [(stepFn_oob (by omega : sStuck.workers.length ≤ n + 1)).2.2.2.2.1] at h
      exact Option.noConfusion h
  | publish w =>
    exfalso
    cases w with
    | zero =>
      rw [show stepFn (.publish 0) sStuck = none from by decide] at h
      exact Option.noConfusion h
    | succ n =>
      rw [(stepFn_oob (by omega : sStuck.workers.length ≤ n + 1)).2.2.2.2.2.1] at h
      exact Option.noConfusion h
  | release w =>
    exfalso
    cases w with
    | zero =>
      rw [show stepFn (.release 0) sStuck = none from by decide] at h
      exact Option.noConfusion h
    | succ n =>
      rw [(stepFn_oob (by omega : sStuck.workers.length ≤ n + 1)).2.2.2.2.2.2] at h
      exact Option.noConfusion h
  | stopCancel =>
    rw [show stepFn .stopCancel sStuck = none from by decide] at h
    exact Option.noConfusion h
  | stopCloseTasks =>
    rw [show stepFn .stopCloseTasks sStuck = none from by decide] at h
    exact Option.noConfusion h
  | stopWait =>
    rw [show stepFn .stopWait sStuck = none from by decide] at h
    exact Option.noConfusion h
  | stopCloseResults =>
    rw [show stepFn .stopCloseResults sStuck = none from by decide] at h
    exact Option.noConfusion h

/-- **C6 amended**: what does hold of the shutdown: once `Stop` is blocked
in `wg.Wait` (phase `queueClosed`), the wait can complete *iff* every
worker has exited; and once the wait has returned, the final
`close(p.results)` is always enabled and completes `Stop`.  So `Stop`
terminates exactly when all workers manage to exit — which the consumer
abandoning the results channel can prevent forever (`c6_counterexample`'s
configuration). -/
theorem c6_amended_stop_completion : ∀ c : PoolState,
    (c.stopPhase = .queueClosed →
      ((∃ c2, stepFn .stopWait c = some c2) ↔ ∀ ws ∈ c.workers, ws.phase = .exited)) ∧
    (c.stopPhase = .waited →
      ∃ c2, stepFn .stopCloseResults c = some c2 ∧ c2.stopPhase = .stopped ∧
        c2.resultsClosed = true) := by
  intro c
  constructor
  · intro hsp
    constructor
    · rintro ⟨c2, h⟩
      simp only [stepFn] at h
      split at h
      case isTrue hg => exact hg.2
      case isFalse => exact Option.noConfusion h
    · intro hall
      simp only [stepFn]
      rw [if_pos ⟨hsp, hall⟩]
      exact ⟨_, rfl⟩
  · intro hsp
    simp only [stepFn]
    rw [if_pos hsp]
    exact ⟨_, rfl, rfl, rfl⟩

/-- Witness for `c6_amended_stop_completion` at `sWaitReady`, where the
only worker has exited: the wait step is enabled. -/
theorem c6_amended_witness : ∃ c2, stepFn .stopWait sWaitReady = some c2 :=
  ((c6_amended_stop_completion sWaitReady).1 (by decide)).mpr (by decide)

end FileAnalytics
